import Mathlib

/-!
Verification of the birthday cog of the Vex-Cogs repository.

The central object is `BirthdayCommands.upcoming` (src/birthday/commands.py,
lines 105-178), which computes the members whose birthday falls within a
lookahead window.  The embedding below models Python `datetime.datetime`
values restricted to midnight (the code normalises `today` to midnight and
builds birthday datetimes with no time-of-day), using CPython's own calendar
arithmetic (`_is_leap`, `_DAYS_IN_MONTH`, `_DAYS_BEFORE_MONTH`, `toordinal`).
A Python `ValueError` raised by the `datetime` constructor or by
`datetime.replace` is modelled as `Except.error UpError.valueError`.
-/

namespace Vex

/-- CPython `_is_leap(year)`: `year % 4 == 0 and (year % 100 != 0 or year % 400 == 0)`. -/
def isLeap (y : Nat) : Bool :=
  decide (y % 4 = 0 ∧ (y % 100 ≠ 0 ∨ y % 400 = 0))

/-- CPython `_days_in_month(year, month)`: 29 for a leap February, otherwise the
`_DAYS_IN_MONTH` table.  Months outside 1..12 give 0 (the constructor rejects
them before this value matters). -/
def daysInMonth (y m : Nat) : Nat :=
  if m = 2 ∧ isLeap y then 29
  else
    match m with
    | 1 => 31 | 2 => 28 | 3 => 31 | 4 => 30 | 5 => 31 | 6 => 30
    | 7 => 31 | 8 => 31 | 9 => 30 | 10 => 31 | 11 => 30 | 12 => 31
    | _ => 0

/-- CPython `_days_before_month(year, month)`: the `_DAYS_BEFORE_MONTH` table plus
one in a leap year for months after February. -/
def daysBeforeMonth (y m : Nat) : Nat :=
  (match m with
  | 1 => 0 | 2 => 31 | 3 => 59 | 4 => 90 | 5 => 120 | 6 => 151 | 7 => 181
  | 8 => 212 | 9 => 243 | 10 => 273 | 11 => 304 | 12 => 334
  | _ => 0)
  + (if 2 < m ∧ isLeap y then 1 else 0)

/-- CPython `_days_before_year(year)`: days before January 1st of `year`. -/
def daysBeforeYear (y : Nat) : Nat :=
  (y - 1) * 365 + (y - 1) / 4 - (y - 1) / 100 + (y - 1) / 400

/-- Length of a year in days. -/
def daysInYear (y : Nat) : Nat :=
  if isLeap y then 366 else 365

/-- A Python `datetime.datetime` at midnight: only the date fields matter for the
code under study (`today_dt` is normalised to midnight and birthday datetimes
carry no time-of-day). -/
structure Date where
  year : Nat
  month : Nat
  day : Nat
deriving DecidableEq, Repr

/-- Validity of the fields exactly as the CPython `datetime` constructor checks
them (`MINYEAR = 1`, `MAXYEAR = 9999`, day within the month). -/
def Date.Valid (d : Date) : Prop :=
  1 ≤ d.year ∧ d.year ≤ 9999 ∧ 1 ≤ d.month ∧ d.month ≤ 12 ∧
    1 ≤ d.day ∧ d.day ≤ daysInMonth d.year d.month

instance (d : Date) : Decidable d.Valid := by
  unfold Date.Valid
  infer_instance

/-- CPython `date.toordinal()`: proleptic Gregorian ordinal of the date. -/
def Date.toOrdinal (d : Date) : Nat :=
  daysBeforeYear d.year + daysBeforeMonth d.year d.month + d.day

/-- Python `datetime` comparison (`<`) restricted to midnight values: fieldwise
lexicographic order on (year, month, day). -/
def Date.lt (a b : Date) : Bool :=
  decide (a.year < b.year ∨
    (a.year = b.year ∧ (a.month < b.month ∨ (a.month = b.month ∧ a.day < b.day))))

/-- The Python `datetime.datetime(year, month, day)` constructor: `some` on valid
fields, `none` for the `ValueError` it otherwise raises. -/
def mkDatetime (y m d : Nat) : Option Date :=
  if 1 ≤ y ∧ y ≤ 9999 ∧ 1 ≤ m ∧ m ≤ 12 ∧ 1 ≤ d ∧ d ≤ daysInMonth y m then
    some ⟨y, m, d⟩
  else none

/-- Python `datetime.replace(year=y)`: rebuilds the datetime through the
constructor, so it revalidates the day against the new year (this is where a
February 29 birthday raises `ValueError` in a non-leap year). -/
def Date.replaceYear (dt : Date) (y : Nat) : Option Date :=
  mkDatetime y dt.month dt.day

/-- A stored birthday record (`config.member(...).birthday`): `year` is `None`
when the member did not disclose it (the set commands store `None` for the
year-1 sentinel), and `month`/`day` as stored. -/
structure BRec where
  year : Option Nat
  month : Nat
  day : Nat
deriving DecidableEq, Repr

/-- One line of the `upcoming` output: the bucket key `days` of the
`parsed_bdays` defaultdict, the member, and the displayed age (`none` when the
record has no year and the message omits the `turns N` part). -/
structure Entry where
  days : Int
  member : Nat
  age : Option Int
deriving DecidableEq, Repr

/-- Outcomes of `upcoming` other than a normal result: the explicit
out-of-range-days early return (lines 112-114), and an uncaught Python
`ValueError` from `datetime`/`replace`. -/
inductive UpError where
  | invalidRange
  | valueError
deriving DecidableEq, Repr

/-- The age string appended by `upcoming` (lines 136-141 and 155-160): nothing
when `birthday_dt.year == 1`, otherwise `today_dt.year - birthday_dt.year`. -/
def bdayAge (todayYear bdayYear : Nat) : Option Int :=
  if bdayYear = 1 then none else some ((todayYear : Int) - (bdayYear : Int))

/-- The body of the per-member loop of `upcoming` (lines 128-162) for one stored
record.  `member_data["birthday"]["year"] or 1` is `Option.getD 1` (a stored
year is never 0, so Python `or` agrees with `getD`).  Returns `ok none` when
the record falls outside the window, `ok (some e)` when an entry is appended
to `parsed_bdays`, and `error valueError` when `datetime` raises. -/
def processRecord (days : Int) (today : Date) (memberId : Nat) (rec : BRec) :
    Except UpError (Option Entry) :=
  match mkDatetime (rec.year.getD 1) rec.month rec.day with
  | none => .error .valueError
  | some birthday_dt =>
    if today.month = birthday_dt.month ∧ today.day = birthday_dt.day then
      .ok (some ⟨0, memberId, bdayAge today.year birthday_dt.year⟩)
    else
      match birthday_dt.replaceYear today.year, birthday_dt.replaceYear (today.year + 1) with
      | some this_year_bday, some next_year_bday =>
        let next_birthday_dt :=
          if Date.lt today this_year_bday then this_year_bday else next_year_bday
        let diff : Int := (next_birthday_dt.toOrdinal : Int) - (today.toOrdinal : Int)
        if diff > days then .ok none
        else .ok (some ⟨diff, memberId, bdayAge today.year birthday_dt.year⟩)
      | _, _ => .error .valueError

/-- The member loop of `upcoming` (lines 123-162) over the guild's records.
Each input is `(member_id, present, record)` where `present` models
`ctx.guild.get_member` returning a member (line 124-126 skips absent ones).
The result flattens the `parsed_bdays` defaultdict: each entry keeps its
bucket key in `Entry.days`, and within a bucket the order is record order,
exactly as the dict's lists are built.  A Python exception aborts the whole
loop, modelled by propagating `Except.error`. -/
def upcomingGo (days : Int) (today : Date) :
    List (Nat × Bool × BRec) → Except UpError (List Entry)
  | [] => .ok []
  | (memberId, present, rec) :: rest =>
    if present then
      match processRecord days today memberId rec with
      | .error e => .error e
      | .ok none => upcomingGo days today rest
      | .ok (some entry) =>
        match upcomingGo days today rest with
        | .error e => .error e
        | .ok l => .ok (entry :: l)
    else upcomingGo days today rest

/-- `BirthdayCommands.upcoming` (lines 105-162): the range guard on `days`
followed by the member loop. -/
def upcoming (days : Int) (today : Date) (records : List (Nat × Bool × BRec)) :
    Except UpError (List Entry) :=
  if days < 1 ∨ days > 365 then .error .invalidRange
  else upcomingGo days today records

/-- Modelled from the spec: `today_exact(guild, today)` (spec section 4.1), the
set of present members whose stored (month, day) equals today's (month, day).
The loop that implements the daily notification (the cog's scheduler) is not
among the provided source files, so this follows the spec's words. -/
def today_exact (today : Date) (records : List (Nat × Bool × BRec)) : List Nat :=
  (records.filter
    (fun r => r.2.1 && (r.2.2.month == today.month) && (r.2.2.day == today.day))).map
    (fun r => r.1)

/-- Following the spec's words (spec section 4.1): the year of the next
occurrence of (month, day) on or after `today` - today's year when the
(month, day) is today's or has not yet passed this year, otherwise next
year.  Used only to compare the code's displayed age against the spec's
`occurrence_year - birth_year`. -/
def spec_occurrence_year (today : Date) (m d : Nat) : Nat :=
  if m = today.month ∧ d = today.day then today.year
  else if Date.lt today ⟨today.year, m, d⟩ then today.year
  else today.year + 1

/-- The time-of-day computation shared by `bdset interactive` (src lines
356-363) and `bdset time` (lines 423-427): the parsed time keeps its hour,
minute, second and microsecond components (`replace` only resets the date
fields and timezone), midnight has all four at zero, so
`int((full_time - midnight).total_seconds())` is
`hour*3600 + minute*60 + second` with only the sub-second part truncated by
`int(...)` (for the in-range microseconds the added term is zero, mirroring
the float truncation). -/
def time_utc_s (hour minute second microsecond : Nat) : Nat :=
  hour * 3600 + minute * 60 + second + microsecond / 1000000

/-- The user-visible outcome of a birthday set command: the too-early-year
rejection (lines 63-65 and 565-567), the future rejection (lines 67-69 and
569-571), or the confirmation after the write. -/
inductive SetResult where
  | tooEarly
  | future
  | success
deriving DecidableEq, Repr

/-- `BirthdayCommands.set` (src lines 46-81).  The converter uses year 1 as the
year-not-specified sentinel (line 61) and produces a midnight datetime, so the
`birthday > datetime.utcnow()` comparison is decided by the date fields alone
(equal dates compare the zero time of `birthday` against the current
time-of-day, never strictly greater).  Returns the member's stored record
after the command and the message kind sent. -/
def set_birthday (minYear : Nat) (nowDate : Date) (birthday : Date)
    (stored : Option BRec) : Option BRec × SetResult :=
  if birthday.year ≠ 1 ∧ birthday.year < minYear then (stored, .tooEarly)
  else if Date.lt nowDate birthday then (stored, .future)
  else
    (some ⟨if birthday.year = 1 then none else some birthday.year,
      birthday.month, birthday.day⟩, .success)

/-- `BirthdayAdminCommands.force` (src lines 549-583): the admin force-set, an
identical guard-and-write sequence targeting the chosen member's record. -/
def force_birthday (minYear : Nat) (nowDate : Date) (birthday : Date)
    (stored : Option BRec) : Option BRec × SetResult :=
  if birthday.year ≠ 1 ∧ birthday.year < minYear then (stored, .tooEarly)
  else if Date.lt nowDate birthday then (stored, .future)
  else
    (some ⟨if birthday.year = 1 then none else some birthday.year,
      birthday.month, birthday.day⟩, .success)

/-- The per-guild message configuration touched by `bdset msgwithyear` and
`bdset msgwithoutyear` (the fields of `conf` those commands read or write). -/
structure GuildConf where
  message_w_year : Option String
  message_wo_year : Option String
  setup_state : Nat
deriving DecidableEq, Repr

/-- Messages the two template commands send: the too-long warning and the
confirmation with preview. -/
inductive MsgNote where
  | tooLong
  | msgSet
deriving DecidableEq, Repr

/-- `BirthdayAdminCommands.msgwithoutyear` (src lines 452-479).  The too-long
branch (lines 466-467) sends a warning but does not return, so the config
write below it always runs; `setup_state` is bumped when the template was
previously unset.  Returns the new config and the messages sent. -/
def msgwithoutyear (maxLen : Nat) (message : String) (conf : GuildConf) :
    GuildConf × List MsgNote :=
  let notes := if message.length > maxLen then [MsgNote.tooLong] else []
  let conf' : GuildConf :=
    { conf with
      setup_state :=
        if conf.message_wo_year = none then conf.setup_state + 1 else conf.setup_state
      message_wo_year := some message }
  (conf', notes ++ [MsgNote.msgSet])

/-- `BirthdayAdminCommands.msgwithyear` (src lines 482-510): same shape as
`msgwithoutyear`, acting on `message_w_year`. -/
def msgwithyear (maxLen : Nat) (message : String) (conf : GuildConf) :
    GuildConf × List MsgNote :=
  let notes := if message.length > maxLen then [MsgNote.tooLong] else []
  let conf' : GuildConf :=
    { conf with
      setup_state :=
        if conf.message_w_year = none then conf.setup_state + 1 else conf.setup_state
      message_w_year := some message }
  (conf', notes ++ [MsgNote.msgSet])

/-- `PredItem` of src/ghissues/button_pred.py: `ref` is an opaque non-None
reference, `style` an opaque button style. -/
structure PredItem where
  ref : Nat
  style : Nat
  label : String
  row : Option Nat
deriving DecidableEq, Repr

/-- The observable side effects of `wait_for_press`, in program order:
constructing the `_PredView`, adding each button, sending the message with
the view, and starting to wait for a press. -/
inductive Effect where
  | mkView
  | addButton (item : PredItem)
  | sendMessage
  | waitForPress
deriving DecidableEq, Repr

/-- The `ValueError` raised by `wait_for_press` on an empty items list. -/
inductive WfpError where
  | valueError
deriving DecidableEq, Repr

/-- `wait_for_press` (src/ghissues/button_pred.py lines 61-110), modelled as
the list of side effects performed before returning or raising, paired with
the raised error if any.  The `if not items: raise ValueError(...)` guard
(lines 98-99) sits before the view is built and the message sent, so the
empty case performs no effects.  The eventual return value (the pressed
button's `ref`) depends on the runtime interaction and is not modelled. -/
def wait_for_press (items : List PredItem) : List Effect × Option WfpError :=
  if items.isEmpty then ([], some .valueError)
  else
    ([Effect.mkView] ++ items.map Effect.addButton ++
      [Effect.sendMessage, Effect.waitForPress], none)

/-!
Supporting lemmas: CPython calendar arithmetic, and the characterisation of
the per-record step of `upcoming`.
-/

theorem daysBeforeYear_succ (y : Nat) (hy : 1 ≤ y) :
    daysBeforeYear (y + 1) = daysBeforeYear y + daysInYear y := by
  obtain ⟨n, rfl⟩ : ∃ n, y = n + 1 := ⟨y - 1, by omega⟩
  unfold daysBeforeYear daysInYear isLeap
  simp only [Nat.add_sub_cancel, decide_eq_true_eq, Nat.succ_div]
  split_ifs <;> omega

theorem daysBeforeMonth_add_le (y m d : Nat) (h1 : 1 ≤ m) (h2 : m ≤ 12)
    (h3 : d ≤ daysInMonth y m) :
    daysBeforeMonth y m + d ≤ daysInYear y := by
  cases hl : isLeap y <;> interval_cases m <;>
    simp [daysBeforeMonth, daysInMonth, daysInYear, hl] at h3 ⊢ <;> omega

theorem daysBeforeMonth_mono (y m m' d : Nat) (h1 : 1 ≤ m) (h2 : m < m') (h3 : m' ≤ 12)
    (hd : d ≤ daysInMonth y m) :
    daysBeforeMonth y m + d ≤ daysBeforeMonth y m' := by
  cases hl : isLeap y <;> interval_cases m' <;> interval_cases m <;>
    simp [daysBeforeMonth, daysInMonth, hl] at hd ⊢ <;> omega

theorem mkDatetime_some (y m d : Nat) (dt : Date) (h : mkDatetime y m d = some dt) :
    dt = ⟨y, m, d⟩ ∧ dt.Valid := by
  unfold mkDatetime at h
  split at h
  · cases h
    exact ⟨rfl, by assumption⟩
  · cases h

theorem toOrdinal_lt_same_year (a b : Date) (hy : a.year = b.year)
    (hva : a.Valid) (hvb : b.Valid)
    (h : a.month < b.month ∨ (a.month = b.month ∧ a.day < b.day)) :
    a.toOrdinal < b.toOrdinal := by
  obtain ⟨hy1, hy2, hm1, hm2, hd1, hd2⟩ := hva
  obtain ⟨hy1b, hy2b, hm1b, hm2b, hd1b, hd2b⟩ := hvb
  unfold Date.toOrdinal
  rw [hy] at hd2 ⊢
  rcases h with h | ⟨he, h⟩
  · have := daysBeforeMonth_mono b.year a.month b.month a.day hm1 h hm2b hd2
    omega
  · rw [he]
    omega

theorem toOrdinal_lt_next_year (a b : Date) (hy : b.year = a.year + 1)
    (hva : a.Valid) (hvb : b.Valid) :
    a.toOrdinal < b.toOrdinal := by
  obtain ⟨hy1, hy2, hm1, hm2, hd1, hd2⟩ := hva
  obtain ⟨hy1b, hy2b, hm1b, hm2b, hd1b, hd2b⟩ := hvb
  unfold Date.toOrdinal
  have h1 := daysBeforeMonth_add_le a.year a.month a.day hm1 hm2 hd2
  have h2 := daysBeforeYear_succ a.year hy1
  rw [hy]
  omega

theorem processRecord_spec (days : Int) (today : Date) (mid : Nat) (rec : BRec)
    (e : Entry) (hv : today.Valid)
    (h : processRecord days today mid rec = .ok (some e)) :
    e.member = mid ∧ e.age = bdayAge today.year (rec.year.getD 1) ∧
      ((today.month = rec.month ∧ today.day = rec.day ∧ e.days = 0) ∨
        (¬(today.month = rec.month ∧ today.day = rec.day) ∧ 0 < e.days ∧ e.days ≤ days)) := by
  unfold processRecord at h
  cases hmk : mkDatetime (rec.year.getD 1) rec.month rec.day with
  | none => rw [hmk] at h; cases h
  | some bd =>
    rw [hmk] at h
    obtain ⟨rfl, hbv⟩ := mkDatetime_some _ _ _ _ hmk
    simp only at h
    split at h
    · rename_i hmatch
      cases h
      exact ⟨rfl, rfl, Or.inl ⟨hmatch.1, hmatch.2, rfl⟩⟩
    · rename_i hmatch
      cases hty : Date.replaceYear ⟨rec.year.getD 1, rec.month, rec.day⟩ today.year with
      | none => rw [hty] at h; cases h
      | some this_year_bday =>
        cases hny : Date.replaceYear ⟨rec.year.getD 1, rec.month, rec.day⟩ (today.year + 1) with
        | none => rw [hty, hny] at h; cases h
        | some next_year_bday =>
          rw [hty, hny] at h
          obtain ⟨rfl, htv⟩ := mkDatetime_some _ _ _ _ hty
          obtain ⟨rfl, hnv⟩ := mkDatetime_some _ _ _ _ hny
          dsimp only at htv hnv h
          split at h <;> split at h
          · cases h
          · rename_i hlt hdiff
            cases h
            have hord : today.toOrdinal < (Date.mk today.year rec.month rec.day).toOrdinal := by
              refine toOrdinal_lt_same_year today (Date.mk today.year rec.month rec.day)
                rfl hv htv ?_
              simp only [Date.lt, decide_eq_true_eq] at hlt
              rcases hlt with hlt | ⟨heq, hlt⟩
              · exact absurd hlt (Nat.lt_irrefl _)
              · exact hlt
            refine ⟨rfl, rfl, Or.inr ⟨hmatch, ?_, ?_⟩⟩ <;> dsimp only <;> omega
          · cases h
          · rename_i hlt hdiff
            cases h
            have hord : today.toOrdinal < (Date.mk (today.year + 1) rec.month rec.day).toOrdinal :=
              toOrdinal_lt_next_year today (Date.mk (today.year + 1) rec.month rec.day) rfl hv hnv
            refine ⟨rfl, rfl, Or.inr ⟨hmatch, ?_, ?_⟩⟩ <;> dsimp only <;> omega

theorem processRecord_match (days : Int) (today : Date) (mid : Nat) (rec : BRec)
    (r : Option Entry)
    (h : processRecord days today mid rec = .ok r)
    (h1 : rec.month = today.month) (h2 : rec.day = today.day) :
    r = some ⟨0, mid, bdayAge today.year (rec.year.getD 1)⟩ := by
  unfold processRecord at h
  cases hmk : mkDatetime (rec.year.getD 1) rec.month rec.day with
  | none => rw [hmk] at h; cases h
  | some bd =>
    rw [hmk] at h
    obtain ⟨rfl, hbv⟩ := mkDatetime_some _ _ _ _ hmk
    simp only at h
    rw [if_pos ⟨h1.symm, h2.symm⟩] at h
    cases h
    rfl

theorem processRecord_member (days : Int) (today : Date) (mid : Nat) (rec : BRec)
    (e : Entry) (h : processRecord days today mid rec = .ok (some e)) :
    e.member = mid := by
  unfold processRecord at h
  cases hmk : mkDatetime (rec.year.getD 1) rec.month rec.day with
  | none => rw [hmk] at h; cases h
  | some bd =>
    rw [hmk] at h
    simp only at h
    split at h
    · cases h
      rfl
    · cases hty : bd.replaceYear today.year with
      | none => rw [hty] at h; cases h
      | some ty =>
        cases hny : bd.replaceYear (today.year + 1) with
        | none => rw [hty, hny] at h; cases h
        | some ny =>
          rw [hty, hny] at h
          simp only at h
          split at h <;> split at h
          · cases h
          · cases h
            rfl
          · cases h
          · cases h
            rfl

theorem upcomingGo_sublist (days : Int) (today : Date)
    (records : List (Nat × Bool × BRec)) (l : List Entry)
    (h : upcomingGo days today records = .ok l) :
    List.Sublist (l.map Entry.member) (records.map (fun r => r.1)) := by
  induction records generalizing l with
  | nil =>
    simp only [upcomingGo] at h
    cases h
    simp
  | cons head rest ih =>
    obtain ⟨mid, present, rec⟩ := head
    simp only [upcomingGo] at h
    by_cases hp : present = true
    · rw [if_pos hp] at h
      cases hpr : processRecord days today mid rec with
      | error e2 => rw [hpr] at h; cases h
      | ok r =>
        rw [hpr] at h
        cases r with
        | none => exact (ih _ h).cons _
        | some entry =>
          cases hrest : upcomingGo days today rest with
          | error e2 => rw [hrest] at h; cases h
          | ok l2 =>
            rw [hrest] at h
            cases h
            have hm := processRecord_member days today mid rec entry hpr
            simp only [List.map_cons, hm]
            exact (ih _ hrest).cons₂ _
    · rw [if_neg hp] at h
      exact (ih _ h).cons _

theorem upcomingGo_mem_src (days : Int) (today : Date)
    (records : List (Nat × Bool × BRec)) (l : List Entry) (e : Entry)
    (h : upcomingGo days today records = .ok l) (he : e ∈ l) :
    ∃ mid rec, (mid, true, rec) ∈ records ∧
      processRecord days today mid rec = .ok (some e) := by
  induction records generalizing l with
  | nil =>
    simp only [upcomingGo] at h
    cases h
    cases he
  | cons head rest ih =>
    obtain ⟨mid, present, rec⟩ := head
    simp only [upcomingGo] at h
    by_cases hp : present = true
    · subst hp
      rw [if_pos rfl] at h
      cases hpr : processRecord days today mid rec with
      | error e2 => rw [hpr] at h; cases h
      | ok r =>
        rw [hpr] at h
        cases r with
        | none =>
          obtain ⟨mid2, rec2, hm, hp2⟩ := ih _ h he
          exact ⟨mid2, rec2, List.mem_cons_of_mem _ hm, hp2⟩
        | some entry =>
          cases hrest : upcomingGo days today rest with
          | error e2 => rw [hrest] at h; cases h
          | ok l2 =>
            rw [hrest] at h
            cases h
            rcases List.mem_cons.mp he with rfl | he2
            · exact ⟨mid, rec, List.mem_cons_self _ _, hpr⟩
            · obtain ⟨mid2, rec2, hm, hp2⟩ := ih _ hrest he2
              exact ⟨mid2, rec2, List.mem_cons_of_mem _ hm, hp2⟩
    · rw [if_neg hp] at h
      obtain ⟨mid2, rec2, hm, hp2⟩ := ih _ h he
      exact ⟨mid2, rec2, List.mem_cons_of_mem _ hm, hp2⟩

theorem upcomingGo_entry_of_rec (days : Int) (today : Date)
    (records : List (Nat × Bool × BRec)) (l : List Entry) (mid : Nat) (rec : BRec)
    (h : upcomingGo days today records = .ok l) (hm : (mid, true, rec) ∈ records) :
    ∃ r, processRecord days today mid rec = .ok r ∧ ∀ e, r = some e → e ∈ l := by
  induction records generalizing l with
  | nil => cases hm
  | cons head rest ih =>
    obtain ⟨mid2, present2, rec2⟩ := head
    simp only [upcomingGo] at h
    by_cases hp : present2 = true
    · rw [if_pos hp] at h
      cases hpr : processRecord days today mid2 rec2 with
      | error e2 => rw [hpr] at h; cases h
      | ok r =>
        rw [hpr] at h
        cases r with
        | none =>
          rcases List.mem_cons.mp hm with heq | hm2
          · cases heq
            exact ⟨none, hpr, fun e he => by cases he⟩
          · exact ih _ h hm2
        | some entry =>
          cases hrest : upcomingGo days today rest with
          | error e2 => rw [hrest] at h; cases h
          | ok l2 =>
            rw [hrest] at h
            cases h
            rcases List.mem_cons.mp hm with heq | hm2
            · cases heq
              exact ⟨some entry, hpr, fun e he => by
                cases he
                exact List.mem_cons_self _ _⟩
            · obtain ⟨r2, hp2, hmem⟩ := ih _ hrest hm2
              exact ⟨r2, hp2, fun e he => List.mem_cons_of_mem _ (hmem e he)⟩
    · rw [if_neg hp] at h
      rcases List.mem_cons.mp hm with heq | hm2
      · cases heq
        exact absurd rfl hp
      · exact ih _ h hm2

theorem upcomingGo_bucket_zero (days : Int) (today : Date) (hv : today.Valid)
    (records : List (Nat × Bool × BRec)) (l : List Entry)
    (h : upcomingGo days today records = .ok l) :
    (l.filter (fun e => e.days == 0)).map Entry.member = today_exact today records := by
  induction records generalizing l with
  | nil =>
    simp only [upcomingGo] at h
    cases h
    simp [today_exact]
  | cons head rest ih =>
    obtain ⟨mid, present, rec⟩ := head
    simp only [upcomingGo] at h
    by_cases hp : present = true
    · subst hp
      rw [if_pos rfl] at h
      cases hpr : processRecord days today mid rec with
      | error e2 => rw [hpr] at h; cases h
      | ok r =>
        rw [hpr] at h
        cases r with
        | none =>
          have hnm : ¬(today.month = rec.month ∧ today.day = rec.day) := by
            intro hmm
            have := processRecord_match days today mid rec none hpr hmm.1.symm hmm.2.symm
            cases this
          have hcond :
              (true && (rec.month == today.month) && (rec.day == today.day)) = false := by
            simp only [Bool.true_and, Bool.and_eq_false_iff, beq_eq_false_iff_ne, ne_eq]
            by_cases h1 : rec.month = today.month
            · right
              intro h2
              exact hnm ⟨h1.symm, h2.symm⟩
            · left
              exact h1
          have ihr := ih _ h
          simp only [today_exact] at ihr ⊢
          simp only [List.filter_cons, hcond, Bool.false_eq_true, if_false]
          exact ihr
        | some entry =>
          cases hrest : upcomingGo days today rest with
          | error e2 => rw [hrest] at h; cases h
          | ok l2 =>
            rw [hrest] at h
            cases h
            obtain ⟨hmem, hage, hcase⟩ := processRecord_spec days today mid rec entry hv hpr
            have ihr := ih _ hrest
            simp only [today_exact] at ihr ⊢
            rcases hcase with ⟨h1, h2, h3⟩ | ⟨hnm, hpos, hle⟩
            · have hcond :
                  (true && (rec.month == today.month) && (rec.day == today.day)) = true := by
                simp only [Bool.true_and, Bool.and_eq_true, beq_iff_eq]
                exact ⟨h1.symm, h2.symm⟩
              have hfz : (entry.days == 0) = true := by simp [h3]
              simp only [List.filter_cons, hcond, hfz, eq_self_iff_true, if_true,
                List.map_cons, hmem, ihr]
            · have hcond :
                  (true && (rec.month == today.month) && (rec.day == today.day)) = false := by
                simp only [Bool.true_and, Bool.and_eq_false_iff, beq_eq_false_iff_ne, ne_eq]
                by_cases h1 : rec.month = today.month
                · right
                  intro h2
                  exact hnm ⟨h1.symm, h2.symm⟩
                · left
                  exact h1
              have hfz : (entry.days == 0) = false := by
                simp only [beq_eq_false_iff_ne, ne_eq]
                omega
              simp only [List.filter_cons, hcond, hfz, Bool.false_eq_true, if_false]
              exact ihr
    · rw [if_neg hp] at h
      have hpf : present = false := by
        cases present
        · rfl
        · exact absurd rfl hp
      subst hpf
      have ihr := ih _ h
      simp only [today_exact] at ihr ⊢
      simp only [List.filter_cons, Bool.false_and, Bool.false_eq_true, if_false]
      exact ihr

/-!
Claim theorems.
-/

/-- Claim C5: for every window value outside [1, 365] the upcoming computation
fails with the InvalidRange error and nothing else happens - the result is the
error constant for every record list, so no record is read and no result is
produced. -/
theorem upcoming_invalid_range_error (days : Int) (today : Date)
    (records : List (Nat × Bool × BRec)) (h : days < 1 ∨ days > 365) :
    upcoming days today records = .error .invalidRange := by
  unfold upcoming
  rw [if_pos h]

/-- Witness for C5 at the concrete out-of-range window 366. -/
theorem upcoming_invalid_range_witness :
    ((366 : Int) < 1 ∨ (366 : Int) > 365) ∧
      upcoming 366 ⟨2024, 6, 1⟩ [(1, true, ⟨none, 6, 1⟩)] = .error .invalidRange :=
  ⟨by decide, upcoming_invalid_range_error 366 ⟨2024, 6, 1⟩ [(1, true, ⟨none, 6, 1⟩)]
    (by decide)⟩

/-- Counterexample to claim C2: with window 0 the code rejects the request with
the invalid-range error instead of succeeding, both on an empty guild and when
a record matches today - the claimed today-exact result never materialises. -/
theorem upcoming_window_zero_cex :
    upcoming 0 ⟨2024, 6, 1⟩ [] = .error .invalidRange ∧
      upcoming 0 ⟨2024, 6, 1⟩ [(1, true, ⟨none, 6, 1⟩)] = .error .invalidRange :=
  ⟨rfl, rfl⟩

/-- Claim C2 (amended): a window of 0 always fails with InvalidRange, whatever
the records; the today-exact set is instead obtained as the days-0 group of
any successful call with a valid window. -/
theorem upcoming_window_zero_rejected (days : Int) (today : Date)
    (records : List (Nat × Bool × BRec)) (entries : List Entry)
    (hv : today.Valid) (h : upcoming days today records = .ok entries) :
    (∀ (today2 : Date) (records2 : List (Nat × Bool × BRec)),
        upcoming 0 today2 records2 = .error .invalidRange) ∧
      (entries.filter (fun e => e.days == 0)).map Entry.member =
        today_exact today records := by
  constructor
  · intro today2 records2
    unfold upcoming
    rw [if_pos (Or.inl (by norm_num))]
  · unfold upcoming at h
    split at h
    · cases h
    · exact upcomingGo_bucket_zero days today hv records entries h

/-- Witness for C2's amended claim at a concrete guild. -/
theorem upcoming_window_zero_witness :
    upcoming 0 ⟨2024, 3, 3⟩ [] = .error .invalidRange ∧
      (([⟨0, 1, none⟩] : List Entry).filter (fun e => e.days == 0)).map Entry.member =
        today_exact ⟨2024, 6, 1⟩
          [(1, true, ⟨none, 6, 1⟩), (2, true, ⟨some 2000, 7, 4⟩)] := by
  have h := upcoming_window_zero_rejected 7 ⟨2024, 6, 1⟩
    [(1, true, ⟨none, 6, 1⟩), (2, true, ⟨some 2000, 7, 4⟩)] [⟨0, 1, none⟩]
    (by decide) (by rfl)
  exact ⟨h.1 ⟨2024, 3, 3⟩ [], h.2⟩

/-- Claim C3: on any successful call every returned entry has a days-until in
[0, window], and when the guild's records carry pairwise distinct member ids
(they are read from a dict keyed by member id) no member appears twice in the
result. -/
theorem upcoming_bounds_and_nodup (days : Int) (today : Date)
    (records : List (Nat × Bool × BRec)) (entries : List Entry)
    (hv : today.Valid) (hnd : (records.map (fun r => r.1)).Nodup)
    (h : upcoming days today records = .ok entries) :
    (∀ e ∈ entries, 0 ≤ e.days ∧ e.days ≤ days) ∧
      (entries.map Entry.member).Nodup := by
  unfold upcoming at h
  split at h
  · cases h
  · rename_i hrange
    constructor
    · intro e he
      obtain ⟨mid, rec, hm, hpr⟩ := upcomingGo_mem_src days today records entries e h he
      obtain ⟨hmem, hage, hcase⟩ := processRecord_spec days today mid rec e hv hpr
      rcases hcase with ⟨h1, h2, h0⟩ | ⟨hnm, hpos, hle⟩
      · constructor
        · omega
        · omega
      · constructor
        · omega
        · exact hle
    · exact hnd.sublist (upcomingGo_sublist days today records entries h)

/-- Witness for C3 at a concrete guild with a today entry and a two-days-away
entry. -/
theorem upcoming_bounds_witness :
    (0 ≤ (2 : Int) ∧ (2 : Int) ≤ 7) ∧
      (([⟨0, 1, none⟩, ⟨2, 2, some 24⟩] : List Entry).map Entry.member).Nodup := by
  have h := upcoming_bounds_and_nodup 7 ⟨2024, 6, 1⟩
    [(1, true, ⟨none, 6, 1⟩), (2, true, ⟨some 2000, 6, 3⟩)]
    [⟨0, 1, none⟩, ⟨2, 2, some 24⟩] (by decide) (by decide) (by rfl)
  exact ⟨h.1 ⟨2, 2, some 24⟩ (by decide), h.2⟩

/-- Counterexample to claim C4: the spec's own scenario - the record
(month 2, day 29, year 2000) queried with window 0 on 2024-02-29 - is rejected
as an invalid range, so the member is not reported in any group; and with a
valid window a year-unknown February 29 record makes the whole computation
raise instead of appearing in the zero group. -/
theorem upcoming_today_match_cex :
    upcoming 0 ⟨2024, 2, 29⟩ [(7, true, ⟨some 2000, 2, 29⟩)] = .error .invalidRange ∧
      upcoming 365 ⟨2024, 2, 29⟩ [(9, true, ⟨none, 2, 29⟩)] = .error .valueError :=
  ⟨rfl, rfl⟩

/-- Claim C4 (amended): whenever the computation succeeds, every present record
whose (month, day) equals today's appears in the days-0 group, with age
today's year minus birth year when the year is known; the spec's concrete
scenario holds once its window is a valid one (1 instead of 0). -/
theorem upcoming_today_match_zero_group (days : Int) (today : Date)
    (records : List (Nat × Bool × BRec)) (entries : List Entry)
    (mid : Nat) (rec : BRec)
    (h : upcoming days today records = .ok entries)
    (hm : (mid, true, rec) ∈ records)
    (h1 : rec.month = today.month) (h2 : rec.day = today.day) :
    Entry.mk 0 mid (bdayAge today.year (rec.year.getD 1)) ∈ entries := by
  unfold upcoming at h
  split at h
  · cases h
  · obtain ⟨r, hpr, hmem⟩ :=
      upcomingGo_entry_of_rec days today records entries mid rec h hm
    exact hmem _ (processRecord_match days today mid rec r hpr h1 h2)

/-- Witness for C4's amended claim: the spec scenario with window 1 - the
member born 2000-02-29 is reported today with age 24 on 2024-02-29. -/
theorem upcoming_today_match_witness :
    upcoming 1 ⟨2024, 2, 29⟩ [(7, true, ⟨some 2000, 2, 29⟩)] = .ok [⟨0, 7, some 24⟩] ∧
      Entry.mk 0 7 (bdayAge 2024 2000) ∈ ([⟨0, 7, some 24⟩] : List Entry) := by
  refine ⟨by rfl, ?_⟩
  exact upcoming_today_match_zero_group 1 ⟨2024, 2, 29⟩
    [(7, true, ⟨some 2000, 2, 29⟩)] [⟨0, 7, some 24⟩] 7 ⟨some 2000, 2, 29⟩
    (by rfl) (by decide) rfl rfl

/-- Claim C1 evaluated at the failing input: for a January 1st 2000 birthday
viewed on 2024-12-30 the code reports the age 24 (today's year minus birth
year) while the occurrence is on 2025-01-01, so the spec's
occurrence-year-based age is 25, not 24. -/
theorem upcoming_age_wrap_divergence :
    upcoming 7 ⟨2024, 12, 30⟩ [(1, true, ⟨some 2000, 1, 1⟩)] = .ok [⟨2, 1, some 24⟩] ∧
      spec_occurrence_year ⟨2024, 12, 30⟩ 1 1 = 2025 ∧
      ((spec_occurrence_year ⟨2024, 12, 30⟩ 1 1 : Int) - 2000 ≠ 24) :=
  ⟨rfl, rfl, by decide⟩

/-- Claim C8 evaluated at the failing inputs: a February 29 record makes
`upcoming` raise ValueError - via `replace` when this or the next year has no
February 29, and via the year-1 sentinel in the constructor when the year is
undisclosed (year 1 is not a leap year), even when today is February 29. -/
theorem upcoming_feb29_value_error :
    upcoming 7 ⟨2023, 3, 1⟩ [(1, true, ⟨some 2000, 2, 29⟩)] = .error .valueError ∧
      upcoming 7 ⟨2024, 2, 29⟩ [(2, true, ⟨none, 2, 29⟩)] = .error .valueError ∧
      upcoming 7 ⟨2024, 3, 5⟩ [(3, true, ⟨some 2000, 2, 29⟩)] = .error .valueError :=
  ⟨rfl, rfl, rfl⟩

/-- Counterexample to claim C6: the interactive setup accepts a parsed time
with a seconds component - for 07:00:30 it stores 25230 seconds, not a
multiple of 60, so seconds are not truncated. -/
theorem time_utc_s_seconds_cex :
    time_utc_s 7 0 30 0 = 25230 ∧ ¬ (60 ∣ time_utc_s 7 0 30 0) :=
  ⟨rfl, by decide⟩

/-- Claim C6 (amended): the stored value is hour*3600 + minute*60 + second with
only the sub-second part truncated by `int(...)`; it lies in [0, 86400) for
every parsed time, and is a multiple of 60 exactly when the input's seconds
component is zero. -/
theorem time_utc_s_range (hour minute second micro : Nat)
    (hh : hour < 24) (hm : minute < 60) (hs : second < 60) (hmz : micro < 1000000) :
    time_utc_s hour minute second micro = hour * 3600 + minute * 60 + second ∧
      time_utc_s hour minute second micro < 86400 ∧
      (second = 0 → 60 ∣ time_utc_s hour minute second micro) := by
  unfold time_utc_s
  have hz : micro / 1000000 = 0 := Nat.div_eq_of_lt hmz
  refine ⟨by omega, by omega, ?_⟩
  intro h0
  subst h0
  rw [hz]
  exact ⟨hour * 60 + minute, by ring⟩

/-- Witness for C6's amended claim at the parsed time 07:45:00. -/
theorem time_utc_s_range_witness :
    time_utc_s 7 45 0 0 = 7 * 3600 + 45 * 60 + 0 ∧
      time_utc_s 7 45 0 0 < 86400 ∧
      60 ∣ time_utc_s 7 45 0 0 := by
  have h := time_utc_s_range 7 45 0 0 (by decide) (by decide) (by decide) (by decide)
  exact ⟨h.1, h.2.1, h.2.2 rfl⟩

/-- Claim C7: both the self-set and the admin force-set reject a disclosed year
below the configured minimum while leaving the stored record untouched, and a
write only ever happens when the year is the undisclosed sentinel or at least
the minimum. -/
theorem set_birthday_min_year_guard (minYear : Nat) (nowDate birthday : Date)
    (stored : Option BRec)
    (h1 : birthday.year ≠ 1) (h2 : birthday.year < minYear) :
    set_birthday minYear nowDate birthday stored = (stored, .tooEarly) ∧
      force_birthday minYear nowDate birthday stored = (stored, .tooEarly) ∧
      (∀ (b2 : Date) (st : Option BRec),
        (set_birthday minYear nowDate b2 st).1 ≠ st →
          b2.year = 1 ∨ minYear ≤ b2.year) ∧
      (∀ (b2 : Date) (st : Option BRec),
        (force_birthday minYear nowDate b2 st).1 ≠ st →
          b2.year = 1 ∨ minYear ≤ b2.year) := by
  refine ⟨?_, ?_, ?_, ?_⟩
  · unfold set_birthday
    rw [if_pos ⟨h1, h2⟩]
  · unfold force_birthday
    rw [if_pos ⟨h1, h2⟩]
  · intro b2 st hw
    by_cases hy : b2.year = 1
    · exact Or.inl hy
    · right
      by_cases hmin : b2.year < minYear
      · exfalso
        unfold set_birthday at hw
        rw [if_pos ⟨hy, hmin⟩] at hw
        exact hw rfl
      · omega
  · intro b2 st hw
    by_cases hy : b2.year = 1
    · exact Or.inl hy
    · right
      by_cases hmin : b2.year < minYear
      · exfalso
        unfold force_birthday at hw
        rw [if_pos ⟨hy, hmin⟩] at hw
        exact hw rfl
      · omega

/-- Witness for C7 at a concrete year below a concrete minimum. -/
theorem set_birthday_min_year_witness :
    set_birthday 1900 ⟨2024, 6, 1⟩ ⟨1500, 5, 5⟩ none = (none, .tooEarly) ∧
      force_birthday 1900 ⟨2024, 6, 1⟩ ⟨1500, 5, 5⟩ none = (none, .tooEarly) := by
  have h := set_birthday_min_year_guard 1900 ⟨2024, 6, 1⟩ ⟨1500, 5, 5⟩ none
    (by decide) (by decide)
  exact ⟨h.1, h.2.1⟩

/-- Claim C9: the guild's stored template always equals the supplied message
after `msgwithoutyear` or `msgwithyear`, whatever the message length, and an
over-long message additionally triggers the too-long warning (the length
guard has no early return, so the write below it still runs). -/
theorem msg_too_long_still_stored (maxLen : Nat) (message : String)
    (conf : GuildConf) :
    (msgwithoutyear maxLen message conf).1.message_wo_year = some message ∧
      (msgwithyear maxLen message conf).1.message_w_year = some message ∧
      (message.length > maxLen →
        MsgNote.tooLong ∈ (msgwithoutyear maxLen message conf).2 ∧
          MsgNote.tooLong ∈ (msgwithyear maxLen message conf).2) := by
  refine ⟨rfl, rfl, fun h => ⟨?_, ?_⟩⟩
  · unfold msgwithoutyear
    simp only [if_pos h]
    simp
  · unfold msgwithyear
    simp only [if_pos h]
    simp

/-- Witness for C9 at a message of length 4 against a maximum of 2. -/
theorem msg_too_long_witness :
    (msgwithoutyear 2 "abcd" ⟨none, none, 0⟩).1.message_wo_year = some "abcd" ∧
      (msgwithyear 2 "abcd" ⟨none, none, 0⟩).1.message_w_year = some "abcd" ∧
      MsgNote.tooLong ∈ (msgwithoutyear 2 "abcd" ⟨none, none, 0⟩).2 ∧
      MsgNote.tooLong ∈ (msgwithyear 2 "abcd" ⟨none, none, 0⟩).2 := by
  have h := msg_too_long_still_stored 2 "abcd" ⟨none, none, 0⟩
  exact ⟨h.1, h.2.1, (h.2.2 (by decide)).1, (h.2.2 (by decide)).2⟩

/-- Claim C10: `wait_for_press` raises ValueError exactly when the items list is
empty, and in that case no side effect has happened: no view was constructed
and no message was sent. -/
theorem wait_for_press_empty_error (items : List PredItem) :
    ((wait_for_press items).2 = some WfpError.valueError ↔ items = []) ∧
      (items = [] → (wait_for_press items).1 = []) := by
  unfold wait_for_press
  cases items with
  | nil => simp
  | cons a l => simp

/-- Witness for C10 at the empty list. -/
theorem wait_for_press_empty_witness :
    (wait_for_press []).2 = some WfpError.valueError ∧ (wait_for_press []).1 = [] :=
  ⟨(wait_for_press_empty_error []).1.mpr rfl, (wait_for_press_empty_error []).2 rfl⟩

end Vex
